import Mathlib

namespace Gmh

/-!
Verification of the gmhelper frame-to-asset emission pipeline.

This file gives a shallow embedding of the core algorithms of the repository:

* `calculate_tight_bbox` (src/sprites/bbox.rs) — tight bounding box of the
  occupied (alpha > 0) pixels across a stack of RGBA frames;
* the GIF palette construction, `find_nearest_color` and the per-frame
  index encoding of `create_gif` (src/main.rs);
* `strip_trailing_commas`, `read_sprite_overrides`, `ensure_gm_folders_value`
  and the resource upsert of `import_sprite_to_project`
  (src/sprites/gm_import.rs).

Machine integers are modelled as `Nat` / `Int`; colour channels are bytes,
modelled as `Fin 256` (the Rust code never performs wrapping arithmetic on
them: distances are computed in `i32`, which cannot overflow for byte
inputs, so `Int` arithmetic is exact).  JSON documents handled through
`serde_json::Value` are modelled by the small `JVal` type below.
-/

/-- One RGBA pixel, as produced by `to_rgba8`; each channel is a byte. -/
structure Pixel where
  r : Fin 256
  g : Fin 256
  b : Fin 256
  a : Fin 256
deriving DecidableEq

/-- An RGB triple `[u8; 3]`. -/
abbrev Rgb := Fin 256 × Fin 256 × Fin 256

/-- The RGB components of a pixel (`let color = [r, g, b]` in the source). -/
def Pixel.rgb (p : Pixel) : Rgb := (p.r, p.g, p.b)

/-- A frame is its raw RGBA buffer in row-major order (`rgba_img.as_raw()`
read in chunks of 4). -/
abbrev Frame := List Pixel

/-- The default pixel used for out-of-range reads of the model (the Rust
code never reads out of range on well-formed input). -/
def pxZero : Pixel := ⟨0, 0, 0, 0⟩

/-! ## Trailing-comma stripping (src/sprites/gm_import.rs, `strip_trailing_commas`) -/

/-- The left curly brace character, written by code point. -/
def lbrace : Char := Char.ofNat 123

/-- The right curly brace character, written by code point. -/
def rbrace : Char := Char.ofNat 125

/-- Look ahead past whitespace for a closing bracket or brace; mirrors the
`while chars[j].is_whitespace()` loop of the source. -/
def nextNonWsCloser (rest : List Char) : Bool :=
  match rest.dropWhile Char.isWhitespace with
  | c :: _ => c == ']' || c == rbrace
  | [] => false

/-- `strip_trailing_commas`, embedded over the character list with the two
state flags `in_string` and `escape_next` of the source threaded through. -/
def strip_trailing_commas : List Char → Bool → Bool → List Char
  | [], _, _ => []
  | c :: rest, in_string, escape_next =>
    if escape_next then c :: strip_trailing_commas rest in_string false
    else if c == '\\' && in_string then c :: strip_trailing_commas rest in_string true
    else if c == '"' then c :: strip_trailing_commas rest (!in_string) false
    else if !in_string && c == ',' && nextNonWsCloser rest then
      strip_trailing_commas rest in_string false
    else c :: strip_trailing_commas rest in_string false

mutual

/-- Specification of the stripper, written from the spec's words: outside a
string literal, a comma is removed exactly when the next non-whitespace
character is a closing bracket or brace; a double quote enters string mode;
everything else is copied. -/
def stripSpec : List Char → List Char
  | [] => []
  | c :: rest =>
    if c = '"' then c :: stripSpecString rest
    else if c = ',' ∧ nextNonWsCloser rest then stripSpec rest
    else c :: stripSpec rest

/-- Specification, inside a string literal: every character (in particular
every comma) is copied verbatim, an escaped character is copied together
with its backslash, and an unescaped double quote leaves string mode. -/
def stripSpecString : List Char → List Char
  | [] => []
  | c :: rest =>
    if c = '\\' then
      match rest with
      | [] => [c]
      | c2 :: rest2 => c :: c2 :: stripSpecString rest2
    else if c = '"' then c :: stripSpec rest
    else c :: stripSpecString rest

end

/-! ## Tight bounding box (src/sprites/bbox.rs, `calculate_tight_bbox`) -/

/-- Bounding box with pixel coordinates (inclusive on all sides). -/
structure BBox where
  left : Int
  top : Int
  right : Int
  bottom : Int
deriving DecidableEq

/-- The running `(min_x, min_y, max_x, max_y)` state of the scan. -/
structure BState where
  min_x : Int
  min_y : Int
  max_x : Int
  max_y : Int
deriving DecidableEq

/-- The alpha channel of the pixel at `(x, y)`; the source reads
`pixels[((y * width + x) * 4) + 3]`. -/
def alphaAt (frame : Frame) (w x y : Nat) : Nat :=
  ((frame.getD (y * w + x) pxZero).a : Nat)

/-- The body of the nested pixel loop: update the running min/max state if
the pixel is occupied (alpha > 0). -/
def bboxUpdate (frame : Frame) (w : Nat) (st : BState) (xy : Nat × Nat) : BState :=
  if 0 < alphaAt frame w xy.1 xy.2 then
    { min_x := if (xy.1 : Int) < st.min_x then (xy.1 : Int) else st.min_x
      min_y := if (xy.2 : Int) < st.min_y then (xy.2 : Int) else st.min_y
      max_x := if (xy.1 : Int) > st.max_x then (xy.1 : Int) else st.max_x
      max_y := if (xy.2 : Int) > st.max_y then (xy.2 : Int) else st.max_y }
  else st

/-- All `(x, y)` coordinates in loop order (`y` outer, `x` inner). -/
def frameCoords (w h : Nat) : List (Nat × Nat) :=
  (List.range h).flatMap (fun y => (List.range w).map (fun x => (x, y)))

/-- `calculate_tight_bbox`: scan every frame, then every pixel, and return
the tight box, or `none` when `max_x` stayed at its initial `-1`. -/
def calculate_tight_bbox (frames : List Frame) (w h : Nat) : Option BBox :=
  let st := frames.foldl
    (fun st frame => (frameCoords w h).foldl (bboxUpdate frame w) st)
    ⟨(w : Int), (h : Int), -1, -1⟩
  if st.max_x < 0 then none
  else some ⟨st.min_x, st.min_y, st.max_x, st.max_y⟩

/-- A pixel position is occupied when it is in range and has non-zero alpha
in some frame. -/
def Occ (frames : List Frame) (w h x y : Nat) : Prop :=
  x < w ∧ y < h ∧ ∃ f ∈ frames, 0 < alphaAt f w x y

/-- The scan, flattened: every (frame, coordinate) pair in scan order. -/
def allTriples (frames : List Frame) (w h : Nat) : List (Frame × Nat × Nat) :=
  frames.flatMap (fun f => (frameCoords w h).map (fun xy => (f, xy)))

/-- One flattened scan step. -/
def updT (w : Nat) (st : BState) (t : Frame × Nat × Nat) : BState :=
  bboxUpdate t.1 w st t.2

/-- Occupancy of a flattened scan element. -/
def occT (w : Nat) (t : Frame × Nat × Nat) : Prop :=
  0 < alphaAt t.1 w t.2.1 t.2.2

/-! ## GIF palette construction and encoding (src/main.rs, `create_gif`) -/

/-- The reserved transparency marker: pure black `[0, 0, 0]`. -/
def transparent_marker : Rgb := (0, 0, 0)

/-- The exact-match colour lookup (`color_map` in the source, a
`HashMap<[u8;3], usize>`), modelled as an association list; keys are
inserted at most once during collection, so lookup order is irrelevant. -/
abbrev ColorMap := List (Rgb × Nat)

/-- Map lookup (`color_map.get(&color)`). -/
def mapLookup (m : ColorMap) (c : Rgb) : Option Nat :=
  match m with
  | [] => none
  | (k, v) :: rest => if k = c then some v else mapLookup rest c

/-- The palette-building state: the exact-match map and the colour list
(whose entry 0 is the transparency marker). -/
structure PaletteState where
  color_map : ColorMap
  color_list : List Rgb
deriving DecidableEq

/-- The body of the first collection pass over one pixel: an opaque pixel
whose RGB is not the marker and not yet seen is appended to `color_list`
and recorded in `color_map` at its list position. -/
def collectPixel (st : PaletteState) (p : Pixel) : PaletteState :=
  if 0 < (p.a : Nat) then
    if p.rgb ≠ transparent_marker ∧ mapLookup st.color_map p.rgb = none then
      { color_map := (p.rgb, st.color_list.length) :: st.color_map
        color_list := st.color_list ++ [p.rgb] }
    else st
  else st

/-- The first pass of `create_gif`: collect all unique opaque colours from
all frames, with index 0 pre-filled with the transparency marker. -/
def collectColors (frames : List Frame) : PaletteState :=
  frames.foldl (fun st f => f.foldl collectPixel st) ⟨[], [transparent_marker]⟩

/-- Rebuild of the exact-match map after truncation (`for (idx, color) in
color_list.iter().enumerate()`); the truncated list has no duplicate keys,
so insertion order is irrelevant. -/
def rebuildMap (cl : List Rgb) : ColorMap :=
  cl.enum.map (fun iv => (iv.2, iv.1))

/-- The 256-colour truncation of `create_gif` (`palette.len() > 768`, i.e.
more than 256 colours including the reserved slot). -/
def truncatePalette (st : PaletteState) : PaletteState :=
  if 256 < st.color_list.length then
    { color_map := rebuildMap (st.color_list.take 256)
      color_list := st.color_list.take 256 }
  else st

/-- The full palette build of `create_gif`: collection then truncation. -/
def buildPalette (frames : List Frame) : PaletteState :=
  truncatePalette (collectColors frames)

/-- Squared Euclidean RGB distance, computed in `i32` as in the source
(no overflow is possible for byte channels) and cast to `u32`. -/
def distRgb (c pc : Rgb) : Nat :=
  (((c.1 : Int) - (pc.1 : Int)) ^ 2 + ((c.2.1 : Int) - (pc.2.1 : Int)) ^ 2 +
    ((c.2.2 : Int) - (pc.2.2 : Int)) ^ 2).toNat

/-- The search loop of `find_nearest_color` over
`palette.iter().enumerate().skip(1)`: `idx` is the index of the head of the
remaining list, `(best_idx, best_dist)` the running best. -/
def fncGo (color : Rgb) : List Rgb → Nat → Nat → Nat → Nat × Nat
  | [], _, best_idx, best_dist => (best_idx, best_dist)
  | pc :: rest, idx, best_idx, best_dist =>
    if distRgb color pc < best_dist then fncGo color rest (idx + 1) idx (distRgb color pc)
    else fncGo color rest (idx + 1) best_idx best_dist

/-- `find_nearest_color`: returns 0 when the palette holds only the marker,
otherwise the index (from 1 on) of the entry at minimal squared distance,
starting from `best_idx = 1`, `best_dist = u32::MAX`. -/
def find_nearest_color (color : Rgb) (palette : List Rgb) : Nat :=
  if palette.length ≤ 1 then 0
  else (fncGo color (palette.drop 1) 1 1 4294967295).1

/-- The palette index assigned to an opaque pixel colour: exact lookup,
falling back to the nearest surviving colour. -/
def opaqueIndex (st : PaletteState) (c : Rgb) : Nat :=
  match mapLookup st.color_map c with
  | some index => index
  | none => find_nearest_color c st.color_list

/-- Per-pixel index: alpha = 0 maps to the reserved index 0, an opaque
pixel to its exact or nearest palette index. -/
def pixelCode (st : PaletteState) (p : Pixel) : Nat :=
  if (p.a : Nat) = 0 then 0 else opaqueIndex st p.rgb

/-- The per-frame encoding loop of `create_gif`: the indexed pixel list and
the `has_transparent` flag (set exactly by alpha-0 pixels). -/
def encodeFrame (st : PaletteState) (frame : Frame) : List Nat × Bool :=
  frame.foldl
    (fun acc p =>
      if (p.a : Nat) = 0 then (acc.1 ++ [0], true)
      else (acc.1 ++ [opaqueIndex st p.rgb], acc.2))
    ([], false)

/-- The frame's declared transparency key (`frame.transparent`): index 0
exactly when `has_transparent` was set. -/
def frameTransparent (st : PaletteState) (frame : Frame) : Option Nat :=
  if (encodeFrame st frame).2 then some 0 else none

/-- The pixel-by-pixel, frame-by-frame scan of the opaque pixels' RGB
values, in source order. -/
def opaqueScan (frames : List Frame) : List Rgb :=
  frames.flatten.filterMap (fun p => if 0 < (p.a : Nat) then some p.rgb else none)

/-- Spec-side first-seen deduplication: keep each colour's first
appearance, skipping anything in `seen`. -/
def firstSeen (seen : List Rgb) : List Rgb → List Rgb
  | [] => []
  | c :: rest => if c ∈ seen then firstSeen seen rest else c :: firstSeen (c :: seen) rest

/-- Well-formedness of the palette-building state: non-empty colour list
headed by the marker, no duplicates, and the exact-match map holds exactly
the non-marker colours of the list at their positions. -/
def GoodPalette (m : ColorMap) (l : List Rgb) : Prop :=
  l ≠ [] ∧ l.getD 0 transparent_marker = transparent_marker ∧ l.Nodup ∧
  ∀ c i, mapLookup m c = some i ↔ (1 ≤ i ∧ i < l.length ∧ l.getD i transparent_marker = c)

/-! ## Project-document operations (src/sprites/gm_import.rs)

The `.yyp` / `.yy` documents are handled through `serde_json::Value`;
`JVal` models the fragment of it the import code touches. -/

/-- A generic JSON-like tree value (`serde_json::Value`). -/
inductive JVal where
  | jnull : JVal
  | jbool : Bool → JVal
  | jint : Int → JVal
  | jstr : String → JVal
  | jarr : List JVal → JVal
  | jobj : List (String × JVal) → JVal

/-- Object-field lookup, first match (`value.get(key)`). -/
def lookupField : List (String × JVal) → String → Option JVal
  | [], _ => none
  | (k, x) :: rest, key => if k = key then some x else lookupField rest key

/-- `value.get(key)` — only objects have fields. -/
def jGet (v : JVal) (key : String) : Option JVal :=
  match v with
  | .jobj fields => lookupField fields key
  | _ => none

/-- `value.as_str()`. -/
def asStr : JVal → Option String
  | .jstr s => some s
  | _ => none

/-- `value.as_i64()`. -/
def asInt : JVal → Option Int
  | .jint n => some n
  | _ => none

/-- `value.get(key)?.as_i64()`. -/
def getInt (v : JVal) (key : String) : Option Int :=
  (jGet v key).bind asInt

/-! ### Resource upsert (`import_sprite_to_project`, step 10) -/

/-- The identifying name of a resource entry:
`entry.get("id").and_then(|id| id.get("name")).and_then(|n| n.as_str())`. -/
def resourceName (entry : JVal) : Option String :=
  (jGet entry "id").bind (fun id => (jGet id "name").bind asStr)

/-- The new resource entry pushed by the source:
`json!({ "id": { "name": sprite_name, "path": resource_path } })`. -/
def mkResourceEntry (sprite_name resource_path : String) : JVal :=
  .jobj [("id", .jobj [("name", .jstr sprite_name), ("path", .jstr resource_path)])]

/-- Steps of `import_sprite_to_project` on the `resources` array: retain
all entries whose id-name differs from `sprite_name`, then push the new
entry. -/
def upsert_resource (resources : List JVal) (sprite_name resource_path : String) :
    List JVal :=
  (resources.filter (fun e => resourceName e ≠ some sprite_name))
    ++ [mkResourceEntry sprite_name resource_path]

/-! ### Folder chain (`ensure_gm_folders_value`) -/

/-- `GMFolder::new(name, folder_path)` serialized to a JSON value, with the
field order of the `GMFolder` struct. -/
def mkGMFolder (name folder_path : String) : JVal :=
  .jobj [("$GMFolder", .jstr ""), ("%Name", .jstr name),
         ("folderPath", .jstr folder_path), ("name", .jstr name),
         ("resourceType", .jstr "GMFolder"), ("resourceVersion", .jstr "2.0")]

/-- The normalized path key of an accumulated folder path:
`format!("folders/{accumulated}.yy")`. -/
def folderKey (accumulated : String) : String :=
  "folders/" ++ accumulated ++ ".yy"

/-- `folders.iter().any(|f| f.get("folderPath").and_then(as_str) == Some(key))`. -/
def hasFolderPath (folders : List JVal) (key : String) : Bool :=
  folders.any (fun f => ((jGet f "folderPath").bind asStr) == some key)

/-- The loop of `ensure_gm_folders_value` over the path parts, carrying the
accumulated path and appending each missing folder record. -/
def ensureLoop : List JVal → String → List String → List JVal
  | folders, _, [] => folders
  | folders, accumulated, part :: rest =>
    let acc := if accumulated = "" then part else accumulated ++ "/" ++ part
    let key := folderKey acc
    let folders' := if hasFolderPath folders key then folders
                    else folders ++ [mkGMFolder part key]
    ensureLoop folders' acc rest

/-- `ensure_gm_folders_value`: the path is split on `/` and the loop run
with an empty accumulator. -/
def ensure_gm_folders (folders : List JVal) (gm_folder_path : String) : List JVal :=
  ensureLoop folders "" (gm_folder_path.splitOn "/")

/-- The `(name, key)` pairs of every prefix of the chain, in
parent-then-child order, written from the spec's words. -/
def chainPairs : String → List String → List (String × String)
  | _, [] => []
  | accumulated, part :: rest =>
    let acc := if accumulated = "" then part else accumulated ++ "/" ++ part
    (part, folderKey acc) :: chainPairs acc rest

/-- The chain pairs whose key is not yet present, keeping only the first
occurrence of each key (spec side of "appends any missing ones"). -/
def missingPairs (present : String → Bool) : List (String × String) → List (String × String)
  | [] => []
  | (name, key) :: rest =>
    if present key then missingPairs present rest
    else (name, key) :: missingPairs (fun k => present k || k == key) rest

/-! ### Sprite overrides (`read_sprite_overrides` and their application) -/

/-- Fields preserved from an existing sprite `.yy` when dimensions match. -/
structure SpriteOverrides where
  bbox_mode : Int
  bbox_bottom : Int
  bbox_left : Int
  bbox_right : Int
  bbox_top : Int
  origin : Int
  xorigin : Int
  yorigin : Int
deriving DecidableEq

/-- `read_sprite_overrides`.  The input is the parse result of the prior
`.yy` descriptor: `none` stands for a missing, unreadable or unparsable
file (`fs::read_to_string(..).ok()?` / `serde_json::from_str(..).ok()?`);
every field is read with `?`, so any absent or non-integer field yields
`none`, and a width/height mismatch yields `none`. -/
def read_sprite_overrides (yy : Option JVal) (new_width new_height : Nat) :
    Option SpriteOverrides :=
  match yy with
  | none => none
  | some val =>
    match getInt val "width", getInt val "height" with
    | some old_width, some old_height =>
      if old_width ≠ (new_width : Int) ∨ old_height ≠ (new_height : Int) then none
      else
        match jGet val "sequence" with
        | none => none
        | some seq =>
          match getInt val "bboxMode", getInt val "bbox_bottom", getInt val "bbox_left",
              getInt val "bbox_right", getInt val "bbox_top", getInt val "origin",
              getInt seq "xorigin", getInt seq "yorigin" with
          | some bm, some bb, some bl, some br, some bt, some og, some xo, some yo =>
            some ⟨bm, bb, bl, br, bt, og, xo, yo⟩
          | _, _, _, _, _, _, _, _ => none
    | _, _ => none

/-- The bbox/origin fields of the freshly built sprite record
(`GMSpriteModel::new`): `bbox_mode = 0`, `origin = 0`,
`sequence.xorigin = yorigin = 0`, and the bbox from
`calculate_tight_bbox`, or the full-frame rectangle when it is `Empty`
(`bbox.unwrap_or(...)`). -/
structure SpriteRecordFields where
  bbox_mode : Int
  bbox_bottom : Int
  bbox_left : Int
  bbox_right : Int
  bbox_top : Int
  origin : Int
  xorigin : Int
  yorigin : Int
deriving DecidableEq

/-- The fields of `GMSpriteModel::new` relevant to overrides. -/
def baseRecord (width height : Nat) (bbox : Option BBox) : SpriteRecordFields :=
  let bb := bbox.getD ⟨0, 0, (width : Int) - 1, (height : Int) - 1⟩
  ⟨0, bb.bottom, bb.left, bb.right, bb.top, 0, 0, 0⟩

/-- The override merge of `import_sprite_to_project` (step 8): when
overrides were read, they replace the eight fields; otherwise the freshly
computed record stands. -/
def applyOverrides (base : SpriteRecordFields) : Option SpriteOverrides → SpriteRecordFields
  | none => base
  | some ov => ⟨ov.bbox_mode, ov.bbox_bottom, ov.bbox_left, ov.bbox_right, ov.bbox_top,
      ov.origin, ov.xorigin, ov.yorigin⟩

/-- The concrete prior descriptor used by the C6 witness: a 16×16 sprite
with bbox (2,2,13,13) and origin 9 at (3,4). -/
def exYy : JVal :=
  .jobj [("width", .jint 16), ("height", .jint 16),
         ("bboxMode", .jint 2), ("bbox_bottom", .jint 13), ("bbox_left", .jint 2),
         ("bbox_right", .jint 13), ("bbox_top", .jint 2), ("origin", .jint 9),
         ("sequence", .jobj [("xorigin", .jint 3), ("yorigin", .jint 4)])]

/-- The `sequence` object of `exYy`. -/
def exSeq : JVal := .jobj [("xorigin", .jint 3), ("yorigin", .jint 4)]

/-- The C6 descriptor with the `bboxMode` field removed, for the C10
witness. -/
def exYyNoBboxMode : JVal :=
  .jobj [("width", .jint 16), ("height", .jint 16),
         ("bbox_bottom", .jint 13), ("bbox_left", .jint 2),
         ("bbox_right", .jint 13), ("bbox_top", .jint 2), ("origin", .jint 9),
         ("sequence", .jobj [("xorigin", .jint 3), ("yorigin", .jint 4)])]



lemma stripSpec_cons (c : Char) (rest : List Char) :
    stripSpec (c :: rest) =
      if c = '"' then c :: stripSpecString rest
      else if c = ',' ∧ nextNonWsCloser rest then stripSpec rest
      else c :: stripSpec rest := by
  rw [stripSpec.eq_def]

lemma stripSpecString_cons (c : Char) (rest : List Char) :
    stripSpecString (c :: rest) =
      if c = '\\' then
        (match rest with
         | [] => [c]
         | c2 :: rest2 => c :: c2 :: stripSpecString rest2)
      else if c = '"' then c :: stripSpec rest
      else c :: stripSpecString rest := by
  rw [stripSpecString.eq_def]

lemma strip_cons (c : Char) (rest : List Char) (s e : Bool) :
    strip_trailing_commas (c :: rest) s e =
      if e then c :: strip_trailing_commas rest s false
      else if c == '\\' && s then c :: strip_trailing_commas rest s true
      else if c == '"' then c :: strip_trailing_commas rest (!s) false
      else if !s && c == ',' && nextNonWsCloser rest then
        strip_trailing_commas rest s false
      else c :: strip_trailing_commas rest s false := rfl

lemma strip_eq_spec_aux :
    ∀ (n : Nat) (cs : List Char), cs.length ≤ n →
      strip_trailing_commas cs false false = stripSpec cs ∧
      strip_trailing_commas cs true false = stripSpecString cs := by
  intro n
  induction n with
  | zero =>
    intro cs h
    have hnil : cs = [] := List.length_eq_zero.mp (Nat.le_zero.mp h)
    subst hnil
    exact ⟨rfl, rfl⟩
  | succ n ih =>
    intro cs h
    match cs with
    | [] => exact ⟨rfl, rfl⟩
    | c :: rest =>
      have hrest : rest.length ≤ n := by
        simpa [Nat.succ_le_succ_iff] using h
      have ihS := (ih rest hrest).1
      have ihQ := (ih rest hrest).2
      refine ⟨?_, ?_⟩
      · rw [strip_cons, stripSpec_cons]
        by_cases hq : c = '"'
        · subst hq
          simp [ihQ]
        · have hq' : (c == '"') = false := by simp [hq]
          by_cases hcm : c = ','
          · subst hcm
            by_cases hcl : nextNonWsCloser rest
            · simp [hq', hcl, ihS]
            · simp [hq', hq, hcl, ihS]
          · have hcm' : (c == ',') = false := by simp [hcm]
            simp [hq', hq, hcm, hcm', ihS]
      · rw [strip_cons, stripSpecString_cons]
        by_cases hb : c = '\\'
        · subst hb
          simp only [if_neg (Bool.false_ne_true), Bool.and_true, beq_self_eq_true, if_pos rfl,
            if_pos (rfl : '\\' = '\\')]
          match rest with
          | [] => rfl
          | c2 :: rest2 =>
            have hrest2 : rest2.length ≤ n := by
              have h2 : rest2.length + 1 ≤ n := by simpa using hrest
              omega
            rw [strip_cons]
            simp [(ih rest2 hrest2).2]
        · have hb' : (c == '\\') = false := by simp [hb]
          by_cases hq : c = '"'
          · subst hq
            simp [ihS]
          · have hq' : (c == '"') = false := by simp [hq]
            simp [hb', hb, hq', hq, ihQ]

/-- C7: `strip_trailing_commas` removes exactly the commas that precede
(possibly across whitespace) a closing bracket or brace outside of string
literals, tracking string and escape state, and never alters a comma inside
a string literal.  This is stated as extensional equality with `stripSpec`,
the stripper written from the spec's words, together with the spec's two
concrete examples: a trailing comma before a closing brace is removed, and
a comma inside a string value is left untouched. -/
theorem strip_trailing_commas_correct :
    (∀ cs : List Char, strip_trailing_commas cs false false = stripSpec cs) ∧
    strip_trailing_commas [lbrace, '"', 'a', '"', ':', '1', ',', rbrace] false false
      = [lbrace, '"', 'a', '"', ':', '1', rbrace] ∧
    strip_trailing_commas [lbrace, '"', 'a', '"', ':', '"', 'x', ',', rbrace, '"', rbrace]
        false false
      = [lbrace, '"', 'a', '"', ':', '"', 'x', ',', rbrace, '"', rbrace] := by
  refine ⟨fun cs => (strip_eq_spec_aux cs.length cs le_rfl).1, by decide, by decide⟩

lemma fold_eq_triples (frames : List Frame) (w h : Nat) (st0 : BState) :
    frames.foldl (fun st frame => (frameCoords w h).foldl (bboxUpdate frame w) st) st0
      = (allTriples frames w h).foldl (updT w) st0 := by
  induction frames generalizing st0 with
  | nil => rfl
  | cons f fs ihf =>
    have hmap : ∀ st : BState,
        ((frameCoords w h).map (fun xy => (f, xy))).foldl (updT w) st
          = (frameCoords w h).foldl (bboxUpdate f w) st := by
      intro st
      rw [List.foldl_map]
      rfl
    simp only [allTriples, List.flatMap_cons, List.foldl_append, List.foldl_cons, hmap]
    exact ihf _

lemma mem_allTriples (frames : List Frame) (w h : Nat) (f : Frame) (x y : Nat) :
    (f, (x, y)) ∈ allTriples frames w h ↔ f ∈ frames ∧ x < w ∧ y < h := by
  simp only [allTriples, frameCoords, List.mem_flatMap, List.mem_map, List.mem_range]
  constructor
  · rintro ⟨f', hf', xy, ⟨y', hy', x', hx', rfl⟩, heq⟩
    injection heq with h1 h2
    injection h2 with h3 h4
    subst h1
    subst h3
    subst h4
    exact ⟨hf', hx', hy'⟩
  · rintro ⟨hf, hx, hy⟩
    exact ⟨f, hf, (x, y), ⟨y, hy, x, hx, rfl⟩, rfl⟩

lemma bboxUpdate_not_occ (f : Frame) (w : Nat) (st : BState) (xy : Nat × Nat)
    (h : ¬ 0 < alphaAt f w xy.1 xy.2) :
    bboxUpdate f w st xy = st := by
  simp [bboxUpdate, h]

lemma bboxUpdate_occ (f : Frame) (w : Nat) (st : BState) (xy : Nat × Nat)
    (h : 0 < alphaAt f w xy.1 xy.2) :
    ((bboxUpdate f w st xy).min_x = st.min_x ∨ (bboxUpdate f w st xy).min_x = (xy.1 : Int)) ∧
    (bboxUpdate f w st xy).min_x ≤ st.min_x ∧ (bboxUpdate f w st xy).min_x ≤ (xy.1 : Int) ∧
    ((bboxUpdate f w st xy).min_y = st.min_y ∨ (bboxUpdate f w st xy).min_y = (xy.2 : Int)) ∧
    (bboxUpdate f w st xy).min_y ≤ st.min_y ∧ (bboxUpdate f w st xy).min_y ≤ (xy.2 : Int) ∧
    ((bboxUpdate f w st xy).max_x = st.max_x ∨ (bboxUpdate f w st xy).max_x = (xy.1 : Int)) ∧
    st.max_x ≤ (bboxUpdate f w st xy).max_x ∧ (xy.1 : Int) ≤ (bboxUpdate f w st xy).max_x ∧
    ((bboxUpdate f w st xy).max_y = st.max_y ∨ (bboxUpdate f w st xy).max_y = (xy.2 : Int)) ∧
    st.max_y ≤ (bboxUpdate f w st xy).max_y ∧ (xy.2 : Int) ≤ (bboxUpdate f w st xy).max_y := by
  simp only [bboxUpdate, if_pos h]
  refine ⟨?_, ?_, ?_, ?_, ?_, ?_, ?_, ?_, ?_, ?_, ?_, ?_⟩ <;>
    · dsimp only
      split <;> omega

lemma bbox_fold_invariant (w : Nat) :
    ∀ (L : List (Frame × Nat × Nat)) (st : BState),
      ((L.foldl (updT w) st).min_x = st.min_x ∨
        ∃ t ∈ L, occT w t ∧ (L.foldl (updT w) st).min_x = (t.2.1 : Int)) ∧
      ((L.foldl (updT w) st).min_y = st.min_y ∨
        ∃ t ∈ L, occT w t ∧ (L.foldl (updT w) st).min_y = (t.2.2 : Int)) ∧
      ((L.foldl (updT w) st).max_x = st.max_x ∨
        ∃ t ∈ L, occT w t ∧ (L.foldl (updT w) st).max_x = (t.2.1 : Int)) ∧
      ((L.foldl (updT w) st).max_y = st.max_y ∨
        ∃ t ∈ L, occT w t ∧ (L.foldl (updT w) st).max_y = (t.2.2 : Int)) ∧
      (∀ t ∈ L, occT w t →
        (L.foldl (updT w) st).min_x ≤ (t.2.1 : Int) ∧
        (L.foldl (updT w) st).min_y ≤ (t.2.2 : Int) ∧
        (t.2.1 : Int) ≤ (L.foldl (updT w) st).max_x ∧
        (t.2.2 : Int) ≤ (L.foldl (updT w) st).max_y) ∧
      ((L.foldl (updT w) st).min_x ≤ st.min_x ∧ (L.foldl (updT w) st).min_y ≤ st.min_y ∧
        st.max_x ≤ (L.foldl (updT w) st).max_x ∧ st.max_y ≤ (L.foldl (updT w) st).max_y) := by
  intro L
  induction L with
  | nil =>
    intro st
    simp
  | cons t L ih =>
    intro st
    by_cases hocc : occT w t
    · obtain ⟨e1, l1, l1x, e2, l2, l2y, e3, g3, g3x, e4, g4, g4y⟩ :=
        bboxUpdate_occ t.1 w st t.2 hocc
      obtain ⟨i1, i2, i3, i4, ib, imono⟩ := ih (updT w st t)
      rw [List.foldl_cons]
      refine ⟨?_, ?_, ?_, ?_, ?_, ?_⟩
      · rcases i1 with he | ⟨t', ht', ho', he⟩
        · rcases e1 with h' | h'
          · exact Or.inl (by rw [he]; exact h')
          · exact Or.inr ⟨t, List.mem_cons_self t L, hocc, by rw [he]; exact h'⟩
        · exact Or.inr ⟨t', List.mem_cons_of_mem t ht', ho', he⟩
      · rcases i2 with he | ⟨t', ht', ho', he⟩
        · rcases e2 with h' | h'
          · exact Or.inl (by rw [he]; exact h')
          · exact Or.inr ⟨t, List.mem_cons_self t L, hocc, by rw [he]; exact h'⟩
        · exact Or.inr ⟨t', List.mem_cons_of_mem t ht', ho', he⟩
      · rcases i3 with he | ⟨t', ht', ho', he⟩
        · rcases e3 with h' | h'
          · exact Or.inl (by rw [he]; exact h')
          · exact Or.inr ⟨t, List.mem_cons_self t L, hocc, by rw [he]; exact h'⟩
        · exact Or.inr ⟨t', List.mem_cons_of_mem t ht', ho', he⟩
      · rcases i4 with he | ⟨t', ht', ho', he⟩
        · rcases e4 with h' | h'
          · exact Or.inl (by rw [he]; exact h')
          · exact Or.inr ⟨t, List.mem_cons_self t L, hocc, by rw [he]; exact h'⟩
        · exact Or.inr ⟨t', List.mem_cons_of_mem t ht', ho', he⟩
      · intro t' ht' ho'
        rcases List.mem_cons.mp ht' with rfl | hmem
        · exact ⟨le_trans imono.1 l1x, le_trans imono.2.1 l2y,
            le_trans g3x imono.2.2.1, le_trans g4y imono.2.2.2⟩
        · exact ib t' hmem ho'
      · exact ⟨le_trans imono.1 l1, le_trans imono.2.1 l2,
          le_trans g3 imono.2.2.1, le_trans g4 imono.2.2.2⟩
    · have hupd : updT w st t = st := bboxUpdate_not_occ t.1 w st t.2 hocc
      obtain ⟨i1, i2, i3, i4, ib, imono⟩ := ih st
      rw [List.foldl_cons, hupd]
      refine ⟨?_, ?_, ?_, ?_, ?_, imono⟩
      · rcases i1 with he | ⟨t', ht', ho', he⟩
        · exact Or.inl he
        · exact Or.inr ⟨t', List.mem_cons_of_mem t ht', ho', he⟩
      · rcases i2 with he | ⟨t', ht', ho', he⟩
        · exact Or.inl he
        · exact Or.inr ⟨t', List.mem_cons_of_mem t ht', ho', he⟩
      · rcases i3 with he | ⟨t', ht', ho', he⟩
        · exact Or.inl he
        · exact Or.inr ⟨t', List.mem_cons_of_mem t ht', ho', he⟩
      · rcases i4 with he | ⟨t', ht', ho', he⟩
        · exact Or.inl he
        · exact Or.inr ⟨t', List.mem_cons_of_mem t ht', ho', he⟩
      · intro t' ht' ho'
        rcases List.mem_cons.mp ht' with rfl | hmem
        · exact absurd ho' hocc
        · exact ib t' hmem ho'

/-- C2: for every stack of equally-sized RGBA frames, the bounding-box
computation returns `none` exactly when no pixel of any frame has non-zero
alpha; otherwise it returns a box containing every occupied pixel of every
frame that is minimal, in the sense that each of its four edges is attained
by an occupied pixel (so shrinking any edge by one would exclude that
pixel). -/
theorem calculate_tight_bbox_correct (frames : List Frame) (w h : Nat)
    (hlen : ∀ f ∈ frames, f.length = w * h) :
    (calculate_tight_bbox frames w h = none ↔ ∀ x y, ¬ Occ frames w h x y) ∧
    (∀ bb, calculate_tight_bbox frames w h = some bb →
      (∀ x y, Occ frames w h x y →
        bb.left ≤ (x : Int) ∧ bb.top ≤ (y : Int) ∧
        (x : Int) ≤ bb.right ∧ (y : Int) ≤ bb.bottom) ∧
      (∃ x y, Occ frames w h x y ∧ (x : Int) = bb.left) ∧
      (∃ x y, Occ frames w h x y ∧ (y : Int) = bb.top) ∧
      (∃ x y, Occ frames w h x y ∧ (x : Int) = bb.right) ∧
      (∃ x y, Occ frames w h x y ∧ (y : Int) = bb.bottom)) := by
  clear hlen
  have hfold := fold_eq_triples frames w h ⟨(w : Int), (h : Int), -1, -1⟩
  set st0 : BState := ⟨(w : Int), (h : Int), -1, -1⟩ with hst0
  set fin := (allTriples frames w h).foldl (updT w) st0 with hfin
  obtain ⟨i1, i2, i3, i4, ib, imono⟩ := bbox_fold_invariant w (allTriples frames w h) st0
  have hcalc : calculate_tight_bbox frames w h =
      if fin.max_x < 0 then none else some ⟨fin.min_x, fin.min_y, fin.max_x, fin.max_y⟩ := by
    simp only [calculate_tight_bbox, hfold, hfin]
  have hoccb : ∀ x y, Occ frames w h x y →
      fin.min_x ≤ (x : Int) ∧ fin.min_y ≤ (y : Int) ∧
      (x : Int) ≤ fin.max_x ∧ (y : Int) ≤ fin.max_y := by
    intro x y ⟨hx, hy, f, hf, ha⟩
    exact ib (f, (x, y)) ((mem_allTriples frames w h f x y).mpr ⟨hf, hx, hy⟩) ha
  have hnonneg : (∀ x y, ¬ Occ frames w h x y) ↔ fin.max_x < 0 := by
    constructor
    · intro hno
      rcases i3 with he | ⟨⟨f, x, y⟩, hmem, hocc, he⟩
      · rw [he]
        norm_num [hst0]
      · obtain ⟨hf, hx, hy⟩ := (mem_allTriples frames w h f x y).mp hmem
        exact absurd ⟨hx, hy, f, hf, hocc⟩ (hno x y)
    · intro hneg x y hocc
      have := (hoccb x y hocc).2.2.1
      omega
  constructor
  · rw [hcalc]
    constructor
    · intro hnone
      by_contra hcon
      push_neg at hcon
      obtain ⟨x, y, hocc⟩ := hcon
      have hge : ¬ fin.max_x < 0 := by
        have := (hoccb x y hocc).2.2.1
        omega
      rw [if_neg hge] at hnone
      exact Option.some_ne_none _ hnone
    · intro hno
      rw [if_pos (hnonneg.mp hno)]
  · intro bb hbb
    rw [hcalc] at hbb
    by_cases hneg : fin.max_x < 0
    · rw [if_pos hneg] at hbb
      exact absurd hbb (Option.noConfusion)
    · rw [if_neg hneg] at hbb
      obtain rfl : bb = ⟨fin.min_x, fin.min_y, fin.max_x, fin.max_y⟩ := (Option.some.injEq _ _ ▸ hbb).symm
      -- there is at least one occupied pixel, attaining max_x
      have hxr : ∃ x y, Occ frames w h x y ∧ (x : Int) = fin.max_x := by
        rcases i3 with he | ⟨⟨f, x, y⟩, hmem, hocc, he⟩
        · rw [he] at hneg
          norm_num [hst0] at hneg
        · obtain ⟨hf, hx, hy⟩ := (mem_allTriples frames w h f x y).mp hmem
          exact ⟨x, y, ⟨hx, hy, f, hf, hocc⟩, he.symm⟩
      obtain ⟨x0, y0, hocc0, hx0⟩ := hxr
      refine ⟨hoccb, ?_, ?_, ⟨x0, y0, hocc0, hx0⟩, ?_⟩
      · -- min_x is attained
        rcases i1 with he | ⟨⟨f, x, y⟩, hmem, hocc, he⟩
        · exfalso
          have hb := (hoccb x0 y0 hocc0).1
          have hxw : (x0 : Int) < (w : Int) := by exact_mod_cast hocc0.1
          rw [he] at hb
          simp only [hst0] at hb
          omega
        · obtain ⟨hf, hx, hy⟩ := (mem_allTriples frames w h f x y).mp hmem
          exact ⟨x, y, ⟨hx, hy, f, hf, hocc⟩, he.symm⟩
      · -- min_y is attained
        rcases i2 with he | ⟨⟨f, x, y⟩, hmem, hocc, he⟩
        · exfalso
          have hb := (hoccb x0 y0 hocc0).2.1
          have hyh : (y0 : Int) < (h : Int) := by exact_mod_cast hocc0.2.1
          rw [he] at hb
          simp only [hst0] at hb
          omega
        · obtain ⟨hf, hx, hy⟩ := (mem_allTriples frames w h f x y).mp hmem
          exact ⟨x, y, ⟨hx, hy, f, hf, hocc⟩, he.symm⟩
      · -- max_y is attained
        rcases i4 with he | ⟨⟨f, x, y⟩, hmem, hocc, he⟩
        · exfalso
          have hb := (hoccb x0 y0 hocc0).2.2.2
          rw [he] at hb
          simp only [hst0] at hb
          omega
        · obtain ⟨hf, hx, hy⟩ := (mem_allTriples frames w h f x y).mp hmem
          exact ⟨x, y, ⟨hx, hy, f, hf, hocc⟩, he.symm⟩

/-- Witness for C2 at a concrete input: a single 2×1 frame whose second
pixel is occupied. -/
theorem calculate_tight_bbox_correct_witness :
    (calculate_tight_bbox [[pxZero, ⟨1, 2, 3, 4⟩]] 2 1 = none ↔
      ∀ x y, ¬ Occ [[pxZero, ⟨1, 2, 3, 4⟩]] 2 1 x y) ∧
    (∀ bb, calculate_tight_bbox [[pxZero, ⟨1, 2, 3, 4⟩]] 2 1 = some bb →
      (∀ x y, Occ [[pxZero, ⟨1, 2, 3, 4⟩]] 2 1 x y →
        bb.left ≤ (x : Int) ∧ bb.top ≤ (y : Int) ∧
        (x : Int) ≤ bb.right ∧ (y : Int) ≤ bb.bottom) ∧
      (∃ x y, Occ [[pxZero, ⟨1, 2, 3, 4⟩]] 2 1 x y ∧ (x : Int) = bb.left) ∧
      (∃ x y, Occ [[pxZero, ⟨1, 2, 3, 4⟩]] 2 1 x y ∧ (y : Int) = bb.top) ∧
      (∃ x y, Occ [[pxZero, ⟨1, 2, 3, 4⟩]] 2 1 x y ∧ (x : Int) = bb.right) ∧
      (∃ x y, Occ [[pxZero, ⟨1, 2, 3, 4⟩]] 2 1 x y ∧ (y : Int) = bb.bottom)) :=
  calculate_tight_bbox_correct [[pxZero, ⟨1, 2, 3, 4⟩]] 2 1 (by decide)

lemma getD_append_len {α : Type} (l : List α) (c d : α) : (l ++ [c]).getD l.length d = c := by
  simp [List.getD_eq_getElem?_getD, List.getElem?_append_right]

lemma getD_append_lt {α : Type} (l : List α) (c d : α) (i : Nat) (h : i < l.length) :
    (l ++ [c]).getD i d = l.getD i d := by
  simp [List.getD_eq_getElem?_getD, List.getElem?_append_left h]

lemma mem_iff_getD {α : Type} (l : List α) (c d : α) :
    c ∈ l ↔ ∃ i, i < l.length ∧ l.getD i d = c := by
  constructor
  · intro h
    obtain ⟨i, hi, he⟩ := List.mem_iff_getElem.mp h
    exact ⟨i, hi, by simp [List.getD_eq_getElem?_getD, List.getElem?_eq_getElem hi, he]⟩
  · rintro ⟨i, hi, he⟩
    rw [List.getD_eq_getElem?_getD, List.getElem?_eq_getElem hi] at he
    exact he ▸ List.getElem_mem hi

/-- `firstSeen` only depends on the membership set of `seen`. -/
lemma firstSeen_congr :
    ∀ (s : List Rgb) (seen1 seen2 : List Rgb), (∀ x, x ∈ seen1 ↔ x ∈ seen2) →
      firstSeen seen1 s = firstSeen seen2 s := by
  intro s
  induction s with
  | nil => intro _ _ _; rfl
  | cons c rest ih =>
    intro seen1 seen2 hmem
    simp only [firstSeen]
    by_cases hc : c ∈ seen1
    · rw [if_pos hc, if_pos ((hmem c).mp hc)]
      exact ih seen1 seen2 hmem
    · rw [if_neg hc, if_neg (fun h => hc ((hmem c).mpr h))]
      refine congrArg _ (ih (c :: seen1) (c :: seen2) ?_)
      intro x
      simp [hmem x]

lemma mem_firstSeen (c : Rgb) :
    ∀ (s seen : List Rgb), c ∈ s → c ∉ seen → c ∈ firstSeen seen s := by
  intro s
  induction s with
  | nil => intro seen h _; cases h
  | cons c' rest ih =>
    intro seen hmem hnot
    simp only [firstSeen]
    rcases List.mem_cons.mp hmem with rfl | hmem'
    · rw [if_neg hnot]
      exact List.mem_cons_self _ _
    · by_cases hc' : c' ∈ seen
      · rw [if_pos hc']
        exact ih seen hmem' hnot
      · rw [if_neg hc']
        by_cases hcc : c = c'
        · exact hcc ▸ List.mem_cons_self _ _
        · exact List.mem_cons_of_mem _ (ih (c' :: seen) hmem' (by simp [hcc, hnot]))

lemma collect_fold_spec :
    ∀ (P : List Pixel) (m : ColorMap) (l : List Rgb), GoodPalette m l →
      (P.foldl collectPixel ⟨m, l⟩).color_list
          = l ++ firstSeen l
              (P.filterMap (fun p => if 0 < (p.a : Nat) then some p.rgb else none)) ∧
      GoodPalette (P.foldl collectPixel ⟨m, l⟩).color_map
        (P.foldl collectPixel ⟨m, l⟩).color_list := by
  intro P
  induction P with
  | nil =>
    intro m l hg
    exact ⟨by simp [firstSeen], hg⟩
  | cons p P ih =>
    intro m l hg
    obtain ⟨hne, hhead, hnd, hmap⟩ := hg
    have hmem_l : ∀ c : Rgb, c ∈ l ↔ ∃ i, i < l.length ∧ l.getD i transparent_marker = c :=
      fun c => mem_iff_getD l c transparent_marker
    by_cases ha : 0 < (p.a : Nat)
    · by_cases hcnew : p.rgb ≠ transparent_marker ∧ mapLookup m p.rgb = none
      · -- a genuinely new colour is appended
        have hstep : collectPixel ⟨m, l⟩ p =
            ⟨(p.rgb, l.length) :: m, l ++ [p.rgb]⟩ := by
          simp only [collectPixel, if_pos ha]
          rw [if_pos hcnew]
        have hnotin : p.rgb ∉ l := by
          intro hin
          obtain ⟨i, hi, he⟩ := (hmem_l p.rgb).mp hin
          match i with
          | 0 => exact hcnew.1 (he.symm.trans hhead)
          | Nat.succ j =>
            have : mapLookup m p.rgb = some (j + 1) :=
              (hmap p.rgb (j + 1)).mpr ⟨Nat.succ_le_succ (Nat.zero_le j), hi, he⟩
            rw [hcnew.2] at this
            exact Option.noConfusion this
        have hg' : GoodPalette ((p.rgb, l.length) :: m) (l ++ [p.rgb]) := by
          refine ⟨by simp, ?_, ?_, ?_⟩
          · rw [getD_append_lt l _ _ 0 (List.length_pos.mpr hne)]
            exact hhead
          · simp [List.nodup_append, hnd, hnotin]
          · intro c i
            simp only [mapLookup]
            by_cases hc : p.rgb = c
            · subst hc
              rw [if_pos rfl]
              constructor
              · rintro h
                injection h with h
                subst h
                refine ⟨List.length_pos.mpr hne, by simp, getD_append_len l _ _⟩
              · rintro ⟨h1, h2, h3⟩
                rcases Nat.lt_or_ge i l.length with hlt | hge
                · rw [getD_append_lt l _ _ i hlt] at h3
                  exact absurd ((hmem_l p.rgb).mpr ⟨i, hlt, h3⟩) hnotin
                · have : i = l.length := by
                    have := List.length_append l [p.rgb] ▸ h2
                    simp at this
                    omega
                  exact congrArg some this.symm
            · rw [if_neg hc]
              rw [hmap c i]
              constructor
              · rintro ⟨h1, h2, h3⟩
                exact ⟨h1, by simp; omega, by rw [getD_append_lt l _ _ i h2]; exact h3⟩
              · rintro ⟨h1, h2, h3⟩
                rcases Nat.lt_or_ge i l.length with hlt | hge
                · rw [getD_append_lt l _ _ i hlt] at h3
                  exact ⟨h1, hlt, h3⟩
                · have hi : i = l.length := by
                    simp at h2
                    omega
                  rw [hi, getD_append_len l _ _] at h3
                  exact absurd h3 hc
        obtain ⟨ihl, ihg⟩ := ih ((p.rgb, l.length) :: m) (l ++ [p.rgb]) hg'
        constructor
        · rw [List.foldl_cons, hstep, ihl]
          rw [List.filterMap_cons]
          simp only [if_pos ha]
          rw [firstSeen_congr _ (l ++ [p.rgb]) (p.rgb :: l) (by intro x; simp [or_comm])]
          simp only [firstSeen, if_neg hnotin]
          simp [List.append_assoc]
        · rw [List.foldl_cons, hstep]
          exact ihg
      · -- marker colour or already present: state unchanged
        have hstep : collectPixel ⟨m, l⟩ p = ⟨m, l⟩ := by
          simp only [collectPixel, if_pos ha]
          rw [if_neg hcnew]
        have hin : p.rgb ∈ l := by
          rcases not_and_or.mp hcnew with h | h
          · push_neg at h
            rw [h]
            rw [← hhead]
            exact (hmem_l _).mpr ⟨0, List.length_pos.mpr hne, rfl⟩
          · rcases Option.ne_none_iff_exists'.mp h with ⟨i, hi⟩
            obtain ⟨h1, h2, h3⟩ := (hmap p.rgb i).mp hi
            exact (hmem_l _).mpr ⟨i, h2, h3⟩
        obtain ⟨ihl, ihg⟩ := ih m l ⟨hne, hhead, hnd, hmap⟩
        constructor
        · rw [List.foldl_cons, hstep, ihl]
          rw [List.filterMap_cons]
          simp only [if_pos ha]
          simp only [firstSeen, if_pos hin]
        · rw [List.foldl_cons, hstep]
          exact ihg
    · -- transparent pixel: skipped entirely
      have hstep : collectPixel ⟨m, l⟩ p = ⟨m, l⟩ := by
        simp only [collectPixel, if_neg ha]
      obtain ⟨ihl, ihg⟩ := ih m l ⟨hne, hhead, hnd, hmap⟩
      constructor
      · rw [List.foldl_cons, hstep, ihl]
        rw [List.filterMap_cons]
        simp only [if_neg ha]
      · rw [List.foldl_cons, hstep]
        exact ihg

lemma collectColors_spec (frames : List Frame) :
    (collectColors frames).color_list
        = transparent_marker :: firstSeen [transparent_marker] (opaqueScan frames) ∧
    GoodPalette (collectColors frames).color_map (collectColors frames).color_list := by
  have hinit : GoodPalette [] [transparent_marker] := by
    refine ⟨by simp, rfl, by simp, ?_⟩
    intro c i
    constructor
    · intro h
      exact Option.noConfusion h
    · rintro ⟨h1, h2, _⟩
      simp at h2
      omega
  have hflat : collectColors frames = frames.flatten.foldl collectPixel ⟨[], [transparent_marker]⟩ := by
    rw [collectColors, List.foldl_flatten]
  obtain ⟨h1, h2⟩ := collect_fold_spec frames.flatten [] [transparent_marker] hinit
  rw [hflat]
  exact ⟨h1, h2⟩

lemma mapLookup_enumFrom (c : Rgb) :
    ∀ (cl : List Rgb) (n i : Nat),
      mapLookup ((cl.enumFrom n).map (fun iv => (iv.2, iv.1))) c = some i →
      ∃ k, k < cl.length ∧ i = n + k ∧ cl.getD k transparent_marker = c := by
  intro cl
  induction cl with
  | nil => intro n i h; exact Option.noConfusion h
  | cons hd tl ih =>
    intro n i h
    simp only [List.enumFrom, List.map_cons, mapLookup] at h
    by_cases hc : hd = c
    · rw [if_pos hc] at h
      injection h with h
      exact ⟨0, by simp, by omega, by simpa using hc⟩
    · rw [if_neg hc] at h
      obtain ⟨k, hk, hik, hgd⟩ := ih (n + 1) i h
      exact ⟨k + 1, by simpa using hk, by omega, by simpa using hgd⟩

lemma mapLookup_rebuild (cl : List Rgb) (c : Rgb) (i : Nat)
    (h : mapLookup (rebuildMap cl) c = some i) :
    i < cl.length ∧ cl.getD i transparent_marker = c := by
  obtain ⟨k, hk, hik, hgd⟩ := mapLookup_enumFrom c cl 0 i h
  exact ⟨by omega, by rw [hik]; simpa using hgd⟩

/-- C3: for every input frame stack, the palette built by `create_gif` has
at most 256 entries, entry 0 is the reserved transparency marker, the
entries are pairwise distinct, entries 1.. are exactly the opaque
non-marker colours in order of first appearance over the pixel-by-pixel,
frame-by-frame scan, truncated to 255 (the 256 limit minus the reserved
slot), and every colour the exact-match lookup knows maps to its own index
in the surviving list. -/
theorem palette_invariants (frames : List Frame) :
    (buildPalette frames).color_list.length ≤ 256 ∧
    (buildPalette frames).color_list.head? = some transparent_marker ∧
    (buildPalette frames).color_list.Nodup ∧
    (buildPalette frames).color_list.drop 1
      = (firstSeen [transparent_marker] (opaqueScan frames)).take 255 ∧
    (∀ c i, mapLookup (buildPalette frames).color_map c = some i →
      i < (buildPalette frames).color_list.length ∧
      (buildPalette frames).color_list.getD i transparent_marker = c) := by
  obtain ⟨hlist, hne, hhead, hnd, hmap⟩ :
      (collectColors frames).color_list
          = transparent_marker :: firstSeen [transparent_marker] (opaqueScan frames) ∧
      (collectColors frames).color_list ≠ [] ∧
      (collectColors frames).color_list.getD 0 transparent_marker = transparent_marker ∧
      (collectColors frames).color_list.Nodup ∧
      (∀ c i, mapLookup (collectColors frames).color_map c = some i ↔
        (1 ≤ i ∧ i < (collectColors frames).color_list.length ∧
          (collectColors frames).color_list.getD i transparent_marker = c)) := by
    obtain ⟨h1, h2, h3, h4, h5⟩ := collectColors_spec frames
    exact ⟨h1, h2, h3, h4, h5⟩
  set cl := (collectColors frames).color_list with hcl
  have hbuild : buildPalette frames = truncatePalette (collectColors frames) := rfl
  by_cases htr : 256 < cl.length
  · -- truncation happens
    have hb : buildPalette frames =
        ⟨rebuildMap (cl.take 256), cl.take 256⟩ := by
      rw [hbuild, truncatePalette, if_pos htr]
    have hlen256 : (cl.take 256).length = 256 :=
      List.length_take_of_le (Nat.le_of_lt htr)
    have hndtake : (cl.take 256).Nodup := (List.take_sublist 256 cl).nodup hnd
    refine ⟨?_, ?_, ?_, ?_, ?_⟩
    · rw [hb]
      exact Nat.le_of_eq hlen256
    · rw [hb]
      have : cl.take 256 = transparent_marker ::
          (firstSeen [transparent_marker] (opaqueScan frames)).take 255 := by
        rw [hlist]
        exact List.take_succ_cons
      simp [this]
    · rw [hb]
      exact hndtake
    · rw [hb]
      have : cl.take 256 = transparent_marker ::
          (firstSeen [transparent_marker] (opaqueScan frames)).take 255 := by
        rw [hlist]
        exact List.take_succ_cons
      simp [this]
    · intro c i h
      rw [hb] at h ⊢
      exact mapLookup_rebuild (cl.take 256) c i h
  · -- no truncation
    have hb : buildPalette frames = collectColors frames := by
      rw [hbuild, truncatePalette, if_neg htr]
    have hlen : cl.length ≤ 256 := Nat.le_of_not_lt htr
    refine ⟨?_, ?_, ?_, ?_, ?_⟩
    · rw [hb]
      exact hlen
    · rw [hb, ← hcl, hlist]
      rfl
    · rw [hb, ← hcl]
      exact hnd
    · rw [hb, ← hcl, hlist]
      have hshort : (firstSeen [transparent_marker] (opaqueScan frames)).length ≤ 255 := by
        have := hlist ▸ hlen
        simpa using this
      simp [List.take_of_length_le hshort]
    · intro c i h
      rw [hb, ← hcl]
      obtain ⟨h1, h2, h3⟩ := (hmap c i).mp (by rw [hb] at h; exact h)
      exact ⟨h2, h3⟩

lemma sq_diff_le_byte (a b : Fin 256) : ((a : Int) - (b : Int)) ^ 2 ≤ 65025 := by
  have ha1 : (a : Int) ≤ 255 := by exact_mod_cast Fin.is_le a
  have hb1 : (b : Int) ≤ 255 := by exact_mod_cast Fin.is_le b
  have ha0 : (0 : Int) ≤ (a : Int) := Int.natCast_nonneg _
  have hb0 : (0 : Int) ≤ (b : Int) := Int.natCast_nonneg _
  have h655 : (65025 : Int) = 255 ^ 2 := by norm_num
  rw [h655]
  exact sq_le_sq' (by omega) (by omega)

/-- The squared RGB distance of byte colours is at most `3 * 255^2`, in
particular strictly below the `u32::MAX` sentinel. -/
lemma distRgb_le_max (c e : Rgb) : distRgb c e ≤ 195075 := by
  rw [distRgb, Int.toNat_le]
  have h1 := sq_diff_le_byte c.1 e.1
  have h2 := sq_diff_le_byte c.2.1 e.2.1
  have h3 := sq_diff_le_byte c.2.2 e.2.2
  push_cast
  linarith

lemma distRgb_lt_umax (c e : Rgb) : distRgb c e < 4294967295 :=
  lt_of_le_of_lt (distRgb_le_max c e) (by norm_num)

lemma fncGo_spec (c : Rgb) :
    ∀ (pal : List Rgb) (i bi bd : Nat), bi ≤ i →
      (fncGo c pal i bi bd).2 ≤ bd ∧
      (((fncGo c pal i bi bd).1 = bi ∧ (fncGo c pal i bi bd).2 = bd) ∨
        ∃ k, k < pal.length ∧ (fncGo c pal i bi bd).1 = i + k ∧
          (fncGo c pal i bi bd).2 = distRgb c (pal.getD k transparent_marker) ∧
          (fncGo c pal i bi bd).2 < bd) ∧
      (∀ k, k < pal.length →
        (fncGo c pal i bi bd).2 ≤ distRgb c (pal.getD k transparent_marker)) ∧
      (∀ k, k < pal.length → i + k < (fncGo c pal i bi bd).1 →
        (fncGo c pal i bi bd).2 < distRgb c (pal.getD k transparent_marker)) := by
  intro pal
  induction pal with
  | nil =>
    intro i bi bd hbi
    refine ⟨le_rfl, Or.inl ⟨rfl, rfl⟩, ?_, ?_⟩ <;> · intro k hk; cases hk
  | cons pc rest ih =>
    intro i bi bd hbi
    simp only [fncGo]
    by_cases hd : distRgb c pc < bd
    · rw [if_pos hd]
      obtain ⟨r1, r2, r3, r4⟩ := ih (i + 1) i (distRgb c pc) (Nat.le_succ i)
      refine ⟨le_trans r1 (le_of_lt hd), ?_, ?_, ?_⟩
      · rcases r2 with ⟨hA1, hA2⟩ | ⟨k, hk, hR1, hR2, hR3⟩
        · exact Or.inr ⟨0, by simp, by omega, by simpa using hA2, by rw [hA2]; exact hd⟩
        · exact Or.inr ⟨k + 1, by simpa using hk, by omega,
            by simpa [List.getD_cons_succ] using hR2, lt_trans hR3 hd⟩
      · intro k hk
        match k with
        | 0 => simpa using r1
        | Nat.succ k' => simpa [List.getD_cons_succ] using r3 k' (by simpa using hk)
      · intro k hk hlt
        match k with
        | 0 =>
          rcases r2 with ⟨hA1, hA2⟩ | ⟨k', hk', hR1, hR2, hR3⟩
          · omega
          · simpa using hR3
        | Nat.succ k' =>
          simpa [List.getD_cons_succ] using r4 k' (by simpa using hk) (by omega)
    · rw [if_neg hd]
      have hbd : bd ≤ distRgb c pc := Nat.le_of_not_lt hd
      obtain ⟨r1, r2, r3, r4⟩ := ih (i + 1) bi bd (le_trans hbi (Nat.le_succ i))
      refine ⟨r1, ?_, ?_, ?_⟩
      · rcases r2 with ⟨hA1, hA2⟩ | ⟨k, hk, hR1, hR2, hR3⟩
        · exact Or.inl ⟨hA1, hA2⟩
        · exact Or.inr ⟨k + 1, by simpa using hk, by omega,
            by simpa [List.getD_cons_succ] using hR2, hR3⟩
      · intro k hk
        match k with
        | 0 => simpa using le_trans r1 hbd
        | Nat.succ k' => simpa [List.getD_cons_succ] using r3 k' (by simpa using hk)
      · intro k hk hlt
        match k with
        | 0 =>
          rcases r2 with ⟨hA1, hA2⟩ | ⟨k', hk', hR1, hR2, hR3⟩
          · omega
          · simp only [List.getD_cons_zero]
            exact lt_of_lt_of_le hR3 hbd
        | Nat.succ k' =>
          simpa [List.getD_cons_succ] using r4 k' (by simpa using hk) (by omega)

/-- Full specification of `find_nearest_color` on a palette with at least
one entry besides the reserved marker: the result is an index in
`[1, length)` whose entry minimises the squared RGB distance, and among
equal distances the lowest index wins. -/
lemma find_nearest_color_spec (c : Rgb) (palette : List Rgb)
    (h2 : 2 ≤ palette.length) :
    1 ≤ find_nearest_color c palette ∧
    find_nearest_color c palette < palette.length ∧
    (∀ j, 1 ≤ j → j < palette.length →
      distRgb c (palette.getD (find_nearest_color c palette) transparent_marker)
        ≤ distRgb c (palette.getD j transparent_marker)) ∧
    (∀ j, 1 ≤ j → j < find_nearest_color c palette →
      distRgb c (palette.getD (find_nearest_color c palette) transparent_marker)
        < distRgb c (palette.getD j transparent_marker)) := by
  have hlen : ¬ palette.length ≤ 1 := by omega
  have hdrop : (palette.drop 1).length = palette.length - 1 := by simp
  have hgetD : ∀ k, (palette.drop 1).getD k transparent_marker
      = palette.getD (1 + k) transparent_marker := by
    intro k
    simp [List.getD_eq_getElem?_getD, List.getElem?_drop, Nat.add_comm 1 k]
  obtain ⟨r1, r2, r3, r4⟩ := fncGo_spec c (palette.drop 1) 1 1 4294967295 le_rfl
  have hne : 0 < (palette.drop 1).length := by omega
  have hnotA : ¬ ((fncGo c (palette.drop 1) 1 1 4294967295).1 = 1 ∧
      (fncGo c (palette.drop 1) 1 1 4294967295).2 = 4294967295) := by
    rintro ⟨hA1, hA2⟩
    have h0 := r3 0 hne
    rw [hA2] at h0
    have hlt := distRgb_lt_umax c ((palette.drop 1).getD 0 transparent_marker)
    omega
  rcases r2 with hA | ⟨k, hk, hR1, hR2, hR3⟩
  · exact absurd hA hnotA
  · have hfnc : find_nearest_color c palette
        = (fncGo c (palette.drop 1) 1 1 4294967295).1 := by
      rw [find_nearest_color, if_neg hlen]
    have hres : find_nearest_color c palette = 1 + k := by rw [hfnc, hR1]
    have hdist : distRgb c (palette.getD (find_nearest_color c palette) transparent_marker)
        = (fncGo c (palette.drop 1) 1 1 4294967295).2 := by
      rw [hres, hR2, hgetD k]
    refine ⟨by omega, by omega, ?_, ?_⟩
    · intro j hj1 hjlen
      have hj : j = 1 + (j - 1) := by omega
      rw [hdist, hj, ← hgetD (j - 1)]
      exact r3 (j - 1) (by omega)
    · intro j hj1 hjlt
      have hj : j = 1 + (j - 1) := by omega
      rw [hdist, hj, ← hgetD (j - 1)]
      exact r4 (j - 1) (by omega) (by omega)

lemma encodeFrame_eq (st : PaletteState) (frame : Frame) :
    encodeFrame st frame
      = (frame.map (pixelCode st), frame.any (fun p => (p.a : Nat) == 0)) := by
  rw [encodeFrame]
  suffices h : ∀ (acc : List Nat) (b : Bool),
      frame.foldl
        (fun acc p =>
          if (p.a : Nat) = 0 then (acc.1 ++ [0], true)
          else (acc.1 ++ [opaqueIndex st p.rgb], acc.2))
        (acc, b)
      = (acc ++ frame.map (pixelCode st), b || frame.any (fun p => (p.a : Nat) == 0)) by
    simpa using h [] false
  induction frame with
  | nil =>
    intro acc b
    simp
  | cons p P ih =>
    intro acc b
    by_cases hp : (p.a : Nat) = 0
    · simp [hp, ih, pixelCode]
    · have hp' : ((p.a : Nat) == 0) = false := by simp [hp]
      simp [hp, hp', ih, pixelCode]

lemma encodeFrame_getD (st : PaletteState) (frame : Frame) (k : Nat)
    (hk : k < frame.length) (d : Nat) :
    (encodeFrame st frame).1.getD k d = pixelCode st (frame.getD k pxZero) := by
  rw [encodeFrame_eq]
  simp [List.getD_eq_getElem?_getD, List.getElem?_eq_getElem hk,
    List.getElem?_eq_getElem (show k < (frame.map (pixelCode st)).length by simpa using hk)]

/-- C1 (counterexample to the claim as stated): in an animation whose only
opaque colour is pure black — the transparency marker itself — the palette
holds nothing but the marker; the opaque black pixel misses the exact
lookup, yet `find_nearest_color` falls back to returning 0, so index 0 IS
assigned to an opaque pixel. -/
theorem nearest_color_claim_false :
    0 < (((⟨0, 0, 0, 255⟩ : Pixel)).a : Nat) ∧
    mapLookup (buildPalette [[⟨0, 0, 0, 255⟩], [⟨0, 0, 0, 255⟩]]).color_map
      (Pixel.rgb ⟨0, 0, 0, 255⟩) = none ∧
    (encodeFrame (buildPalette [[⟨0, 0, 0, 255⟩], [⟨0, 0, 0, 255⟩]])
      [⟨0, 0, 0, 255⟩]).1.getD 0 1 = 0 := by
  refine ⟨by decide, by decide, by decide⟩

/-- C1 (amended): for every opaque pixel whose RGB misses the exact palette
lookup, **provided the surviving palette has at least one entry besides the
reserved marker**, the encoder assigns the `find_nearest_color` index: an
index in `[1, palette size)` minimising the squared Euclidean RGB distance
over entries from index 1 onward, ties broken by the lowest index.  (When
the palette holds only the marker, index 0 is assigned instead — see the
counterexample.) -/
theorem encode_nearest_color_correct (frames : List Frame) (f : Frame) (k : Nat)
    (hf : f ∈ frames) (hk : k < f.length)
    (ha : 0 < ((f.getD k pxZero).a : Nat))
    (hmiss : mapLookup (buildPalette frames).color_map (f.getD k pxZero).rgb = none)
    (h2 : 2 ≤ (buildPalette frames).color_list.length) :
    (encodeFrame (buildPalette frames) f).1.getD k 0
        = find_nearest_color (f.getD k pxZero).rgb (buildPalette frames).color_list ∧
    1 ≤ (encodeFrame (buildPalette frames) f).1.getD k 0 ∧
    (encodeFrame (buildPalette frames) f).1.getD k 0
        < (buildPalette frames).color_list.length ∧
    (∀ j, 1 ≤ j → j < (buildPalette frames).color_list.length →
      distRgb (f.getD k pxZero).rgb
          ((buildPalette frames).color_list.getD
            ((encodeFrame (buildPalette frames) f).1.getD k 0) transparent_marker)
        ≤ distRgb (f.getD k pxZero).rgb
            ((buildPalette frames).color_list.getD j transparent_marker)) ∧
    (∀ j, 1 ≤ j → j < (encodeFrame (buildPalette frames) f).1.getD k 0 →
      distRgb (f.getD k pxZero).rgb
          ((buildPalette frames).color_list.getD
            ((encodeFrame (buildPalette frames) f).1.getD k 0) transparent_marker)
        < distRgb (f.getD k pxZero).rgb
            ((buildPalette frames).color_list.getD j transparent_marker)) := by
  clear hf
  have hcode : (encodeFrame (buildPalette frames) f).1.getD k 0
      = find_nearest_color (f.getD k pxZero).rgb (buildPalette frames).color_list := by
    rw [encodeFrame_getD _ _ _ hk, pixelCode, if_neg (by omega), opaqueIndex, hmiss]
  obtain ⟨s1, s2, s3, s4⟩ :=
    find_nearest_color_spec (f.getD k pxZero).rgb (buildPalette frames).color_list h2
  rw [hcode]
  exact ⟨rfl, s1, s2, s3, s4⟩

/-- Witness for C1 (amended) at a concrete input: one frame holding an
opaque dark-red pixel and an opaque pure-black pixel; the black pixel
misses the lookup and is remapped to palette index 1. -/
theorem encode_nearest_color_correct_witness :
    (encodeFrame (buildPalette [[⟨10, 0, 0, 255⟩, ⟨0, 0, 0, 255⟩]])
        [⟨10, 0, 0, 255⟩, ⟨0, 0, 0, 255⟩]).1.getD 1 0
      = find_nearest_color (([⟨10, 0, 0, 255⟩, ⟨0, 0, 0, 255⟩] : Frame).getD 1 pxZero).rgb
          (buildPalette [[⟨10, 0, 0, 255⟩, ⟨0, 0, 0, 255⟩]]).color_list ∧
    1 ≤ (encodeFrame (buildPalette [[⟨10, 0, 0, 255⟩, ⟨0, 0, 0, 255⟩]])
        [⟨10, 0, 0, 255⟩, ⟨0, 0, 0, 255⟩]).1.getD 1 0 ∧
    (encodeFrame (buildPalette [[⟨10, 0, 0, 255⟩, ⟨0, 0, 0, 255⟩]])
        [⟨10, 0, 0, 255⟩, ⟨0, 0, 0, 255⟩]).1.getD 1 0
      < (buildPalette [[⟨10, 0, 0, 255⟩, ⟨0, 0, 0, 255⟩]]).color_list.length ∧
    (∀ j, 1 ≤ j → j < (buildPalette [[⟨10, 0, 0, 255⟩, ⟨0, 0, 0, 255⟩]]).color_list.length →
      distRgb (([⟨10, 0, 0, 255⟩, ⟨0, 0, 0, 255⟩] : Frame).getD 1 pxZero).rgb
          ((buildPalette [[⟨10, 0, 0, 255⟩, ⟨0, 0, 0, 255⟩]]).color_list.getD
            ((encodeFrame (buildPalette [[⟨10, 0, 0, 255⟩, ⟨0, 0, 0, 255⟩]])
              [⟨10, 0, 0, 255⟩, ⟨0, 0, 0, 255⟩]).1.getD 1 0) transparent_marker)
        ≤ distRgb (([⟨10, 0, 0, 255⟩, ⟨0, 0, 0, 255⟩] : Frame).getD 1 pxZero).rgb
            ((buildPalette [[⟨10, 0, 0, 255⟩, ⟨0, 0, 0, 255⟩]]).color_list.getD j
              transparent_marker)) ∧
    (∀ j, 1 ≤ j → j < (encodeFrame (buildPalette [[⟨10, 0, 0, 255⟩, ⟨0, 0, 0, 255⟩]])
        [⟨10, 0, 0, 255⟩, ⟨0, 0, 0, 255⟩]).1.getD 1 0 →
      distRgb (([⟨10, 0, 0, 255⟩, ⟨0, 0, 0, 255⟩] : Frame).getD 1 pxZero).rgb
          ((buildPalette [[⟨10, 0, 0, 255⟩, ⟨0, 0, 0, 255⟩]]).color_list.getD
            ((encodeFrame (buildPalette [[⟨10, 0, 0, 255⟩, ⟨0, 0, 0, 255⟩]])
              [⟨10, 0, 0, 255⟩, ⟨0, 0, 0, 255⟩]).1.getD 1 0) transparent_marker)
        < distRgb (([⟨10, 0, 0, 255⟩, ⟨0, 0, 0, 255⟩] : Frame).getD 1 pxZero).rgb
            ((buildPalette [[⟨10, 0, 0, 255⟩, ⟨0, 0, 0, 255⟩]]).color_list.getD j
              transparent_marker)) :=
  encode_nearest_color_correct [[⟨10, 0, 0, 255⟩, ⟨0, 0, 0, 255⟩]]
    [⟨10, 0, 0, 255⟩, ⟨0, 0, 0, 255⟩] 1 (by decide) (by decide) (by decide) (by decide)
    (by decide)

/-- C4 (counterexample to the claim as stated): in a stack whose only
opaque colour is pure black (the marker RGB) and that also has transparent
pixels, the opaque black pixel is assigned index 0 while the frame declares
index 0 as its transparency key — the natural occurrence of the marker
colour silently becomes transparent. -/
theorem marker_opaque_claim_false :
    0 < (((⟨0, 0, 0, 255⟩ : Pixel)).a : Nat) ∧
    Pixel.rgb ⟨0, 0, 0, 255⟩ = transparent_marker ∧
    (encodeFrame (buildPalette [[⟨0, 0, 0, 255⟩, ⟨0, 0, 0, 0⟩], [⟨0, 0, 0, 255⟩, ⟨0, 0, 0, 0⟩]])
      [⟨0, 0, 0, 255⟩, ⟨0, 0, 0, 0⟩]).1.getD 0 1 = 0 ∧
    frameTransparent (buildPalette [[⟨0, 0, 0, 255⟩, ⟨0, 0, 0, 0⟩], [⟨0, 0, 0, 255⟩, ⟨0, 0, 0, 0⟩]])
      [⟨0, 0, 0, 255⟩, ⟨0, 0, 0, 0⟩] = some 0 := by
  refine ⟨by decide, by decide, by decide, by decide⟩

/-- C4 (amended): an opaque pixel whose RGB equals the transparency-marker
colour is never assigned index 0 — it gets a surviving palette slot in
`[1, palette size)` — **provided** some opaque non-marker pixel exists in
the stack and the palette was not truncated (at most 255 distinct opaque
non-marker colours).  Without these provisos the pixel can be assigned
index 0 (see the counterexample): with an all-marker palette via the
`find_nearest_color` fallback, and after truncation via the rebuilt exact
lookup, which then contains the marker at index 0. -/
theorem marker_opaque_not_transparent (frames : List Frame) (f : Frame) (k : Nat)
    (hf : f ∈ frames) (hk : k < f.length)
    (ha : 0 < ((f.getD k pxZero).a : Nat))
    (hm : (f.getD k pxZero).rgb = transparent_marker)
    (hnontriv : ∃ f' ∈ frames, ∃ p ∈ f', 0 < (p.a : Nat) ∧ p.rgb ≠ transparent_marker)
    (hnotrunc : (firstSeen [transparent_marker] (opaqueScan frames)).length ≤ 255) :
    1 ≤ (encodeFrame (buildPalette frames) f).1.getD k 0 ∧
    (encodeFrame (buildPalette frames) f).1.getD k 0
      < (buildPalette frames).color_list.length := by
  clear hf
  obtain ⟨hlist, hgood⟩ := collectColors_spec frames
  rw [GoodPalette] at hgood
  obtain ⟨hne, hhead, hnd, hmap⟩ := hgood
  have hb : buildPalette frames = collectColors frames := by
    rw [buildPalette, truncatePalette, if_neg (by rw [hlist]; simp; omega)]
  have hmarker_none :
      mapLookup (collectColors frames).color_map transparent_marker = none := by
    cases hcase : mapLookup (collectColors frames).color_map transparent_marker with
    | none => rfl
    | some i =>
      exfalso
      obtain ⟨h1, h2, h3⟩ := (hmap _ _).mp hcase
      rw [hlist] at h2 h3 hnd
      have hnotin := (List.nodup_cons.mp hnd).1
      have hi : i - 1 < (firstSeen [transparent_marker] (opaqueScan frames)).length := by
        simp at h2
        omega
      have hsucc : i = (i - 1) + 1 := by omega
      rw [hsucc, List.getD_cons_succ] at h3
      exact hnotin ((mem_iff_getD _ _ transparent_marker).mpr ⟨i - 1, hi, h3⟩)
  obtain ⟨f', hf', p, hp, hpa, hpm⟩ := hnontriv
  have hscan : p.rgb ∈ opaqueScan frames := by
    rw [opaqueScan]
    refine List.mem_filterMap.mpr ⟨p, ?_, by simp [hpa]⟩
    exact List.mem_flatten.mpr ⟨f', hf', hp⟩
  have hmemfs : p.rgb ∈ firstSeen [transparent_marker] (opaqueScan frames) :=
    mem_firstSeen _ _ _ hscan (by simp [hpm])
  have h2 : 2 ≤ (buildPalette frames).color_list.length := by
    rw [hb, hlist]
    have := List.length_pos.mpr (List.ne_nil_of_mem hmemfs)
    simp
    omega
  have hcode : (encodeFrame (buildPalette frames) f).1.getD k 0
      = find_nearest_color (f.getD k pxZero).rgb (buildPalette frames).color_list := by
    rw [encodeFrame_getD _ _ _ hk, pixelCode, if_neg (by omega), opaqueIndex, hm, hb,
      hmarker_none]
  obtain ⟨s1, s2, _, _⟩ :=
    find_nearest_color_spec (f.getD k pxZero).rgb (buildPalette frames).color_list h2
  rw [hcode]
  exact ⟨s1, s2⟩

/-- Witness for C4 (amended): a frame with an opaque pure-black pixel and
an opaque dark-red pixel; the black pixel is remapped to index 1, not 0. -/
theorem marker_opaque_not_transparent_witness :
    1 ≤ (encodeFrame (buildPalette [[⟨0, 0, 0, 255⟩, ⟨10, 0, 0, 255⟩]])
        [⟨0, 0, 0, 255⟩, ⟨10, 0, 0, 255⟩]).1.getD 0 0 ∧
    (encodeFrame (buildPalette [[⟨0, 0, 0, 255⟩, ⟨10, 0, 0, 255⟩]])
        [⟨0, 0, 0, 255⟩, ⟨10, 0, 0, 255⟩]).1.getD 0 0
      < (buildPalette [[⟨0, 0, 0, 255⟩, ⟨10, 0, 0, 255⟩]]).color_list.length :=
  marker_opaque_not_transparent [[⟨0, 0, 0, 255⟩, ⟨10, 0, 0, 255⟩]]
    [⟨0, 0, 0, 255⟩, ⟨10, 0, 0, 255⟩] 0 (by decide) (by decide) (by decide) (by decide)
    ⟨[⟨0, 0, 0, 255⟩, ⟨10, 0, 0, 255⟩], by decide, ⟨10, 0, 0, 255⟩, by decide, by decide⟩
    (by decide)

/-- C5 (counterexample to the claim as stated): a frame whose only pixel is
opaque pure black, in a stack whose palette is just the marker.  The pixel
is encoded as index 0 (nearest-colour fallback), yet the frame declares no
transparency key, so "declares index 0 iff it used any index-0 pixel"
fails. -/
theorem frame_key_claim_false :
    ¬ (frameTransparent (buildPalette [[⟨0, 0, 0, 255⟩], [⟨0, 0, 0, 255⟩]])
          [⟨0, 0, 0, 255⟩] = some 0 ↔
        0 ∈ (encodeFrame (buildPalette [[⟨0, 0, 0, 255⟩], [⟨0, 0, 0, 255⟩]])
          [⟨0, 0, 0, 255⟩]).1) := by
  decide

/-- C5 (amended): an encoded frame declares index 0 as its transparency key
iff the frame contains an alpha-0 pixel (and such a frame did use index 0);
a frame with no transparent pixels declares no key, even when index 0
appears in it via the all-marker nearest-colour fallback. -/
theorem frame_transparency_key_iff (frames : List Frame) (f : Frame) (hf : f ∈ frames) :
    (frameTransparent (buildPalette frames) f = some 0 ↔ ∃ p ∈ f, (p.a : Nat) = 0) ∧
    (frameTransparent (buildPalette frames) f = some 0 →
      0 ∈ (encodeFrame (buildPalette frames) f).1) := by
  clear hf
  have hsnd : (encodeFrame (buildPalette frames) f).2
      = f.any (fun p => (p.a : Nat) == 0) := by
    rw [encodeFrame_eq]
  have hiff : frameTransparent (buildPalette frames) f = some 0 ↔
      ∃ p ∈ f, (p.a : Nat) = 0 := by
    rw [frameTransparent, hsnd]
    by_cases hany : f.any (fun p => (p.a : Nat) == 0)
    · rw [if_pos hany]
      obtain ⟨p, hp, hpa⟩ := List.any_eq_true.mp hany
      exact iff_of_true rfl ⟨p, hp, by simpa using hpa⟩
    · rw [if_neg hany]
      refine iff_of_false (fun h => Option.noConfusion h) ?_
      rintro ⟨p, hp, hpa⟩
      exact hany (List.any_eq_true.mpr ⟨p, hp, by simpa using hpa⟩)
  refine ⟨hiff, ?_⟩
  intro h
  obtain ⟨p, hp, hpa⟩ := hiff.mp h
  rw [encodeFrame_eq]
  exact List.mem_map.mpr ⟨p, hp, by simp [pixelCode, hpa]⟩

/-- Witness for C5 (amended): a frame with one opaque grey pixel and one
transparent pixel declares index 0 as its key and used index 0. -/
theorem frame_transparency_key_iff_witness :
    (frameTransparent (buildPalette [[⟨5, 5, 5, 255⟩, ⟨0, 0, 0, 0⟩]])
        [⟨5, 5, 5, 255⟩, ⟨0, 0, 0, 0⟩] = some 0 ↔
      ∃ p ∈ ([⟨5, 5, 5, 255⟩, ⟨0, 0, 0, 0⟩] : Frame), (p.a : Nat) = 0) ∧
    (frameTransparent (buildPalette [[⟨5, 5, 5, 255⟩, ⟨0, 0, 0, 0⟩]])
        [⟨5, 5, 5, 255⟩, ⟨0, 0, 0, 0⟩] = some 0 →
      0 ∈ (encodeFrame (buildPalette [[⟨5, 5, 5, 255⟩, ⟨0, 0, 0, 0⟩]])
        [⟨5, 5, 5, 255⟩, ⟨0, 0, 0, 0⟩]).1) :=
  frame_transparency_key_iff [[⟨5, 5, 5, 255⟩, ⟨0, 0, 0, 0⟩]]
    [⟨5, 5, 5, 255⟩, ⟨0, 0, 0, 0⟩] (by decide)

/-- C9: upserting removes every entry whose identifying name equals the
given name and appends exactly one new entry at the end, leaving the
relative order of all other entries unchanged (the result minus its last
element is the original list filtered); afterwards exactly one entry
carries that name, and upserting again with the same name is idempotent. -/
theorem upsert_resource_correct (resources : List JVal)
    (sprite_name resource_path : String) :
    (upsert_resource resources sprite_name resource_path).dropLast
        = resources.filter (fun e => resourceName e ≠ some sprite_name) ∧
    (upsert_resource resources sprite_name resource_path).getLast?
        = some (mkResourceEntry sprite_name resource_path) ∧
    (∀ e ∈ (upsert_resource resources sprite_name resource_path).dropLast,
        resourceName e ≠ some sprite_name) ∧
    (upsert_resource resources sprite_name resource_path).countP
        (fun e => resourceName e = some sprite_name) = 1 ∧
    upsert_resource (upsert_resource resources sprite_name resource_path)
        sprite_name resource_path
      = upsert_resource resources sprite_name resource_path := by
  have hname : resourceName (mkResourceEntry sprite_name resource_path)
      = some sprite_name := rfl
  refine ⟨?_, ?_, ?_, ?_, ?_⟩
  · rw [upsert_resource]
    exact List.dropLast_concat
  · rw [upsert_resource]
    exact List.getLast?_concat _
  · intro e he
    rw [upsert_resource, List.dropLast_concat] at he
    exact of_decide_eq_true (List.mem_filter.mp he).2
  · rw [upsert_resource, List.countP_append]
    have h0 : (resources.filter (fun e => resourceName e ≠ some sprite_name)).countP
        (fun e => resourceName e = some sprite_name) = 0 := by
      rw [List.countP_eq_zero]
      intro e he
      have := of_decide_eq_true (List.mem_filter.mp he).2
      simpa using this
    rw [h0]
    simp [List.countP_cons, hname]
  · simp only [upsert_resource, List.filter_append]
    have h1 : List.filter (fun e => resourceName e ≠ some sprite_name)
        [mkResourceEntry sprite_name resource_path] = [] := by
      simp [List.filter, hname]
    rw [h1, List.append_nil, List.filter_filter]
    congr 1
    apply List.filter_congr
    intro e _
    simp

lemma jGet_mkGMFolder (name key : String) :
    (jGet (mkGMFolder name key) "folderPath").bind asStr = some key := by
  have h1 : ("$GMFolder" = "folderPath") = False := by simp
  have h2 : ("%Name" = "folderPath") = False := by simp
  simp [mkGMFolder, jGet, lookupField, h1, h2, asStr]

lemma hasFolderPath_append (folders : List JVal) (name key k : String) :
    hasFolderPath (folders ++ [mkGMFolder name key]) k
      = (hasFolderPath folders k || k == key) := by
  rw [hasFolderPath, List.any_append]
  have h1 : [mkGMFolder name key].any
      (fun f => ((jGet f "folderPath").bind asStr) == some k) = (k == key) := by
    simp only [List.any_cons, List.any_nil, Bool.or_false]
    rw [jGet_mkGMFolder]
    by_cases hk : k = key
    · subst hk
      simp
    · have hk' : ¬ key = k := fun h => hk h.symm
      simp [hk, hk']
  rw [h1, hasFolderPath]

lemma ensureLoop_spec :
    ∀ (parts : List String) (folders : List JVal) (accumulated : String),
      ensureLoop folders accumulated parts
        = folders ++ (missingPairs (hasFolderPath folders) (chainPairs accumulated parts)).map
            (fun nk => mkGMFolder nk.1 nk.2) := by
  intro parts
  induction parts with
  | nil =>
    intro folders accumulated
    simp [ensureLoop, chainPairs, missingPairs]
  | cons part rest ih =>
    intro folders accumulated
    rw [ensureLoop, chainPairs, missingPairs]
    by_cases hpres : hasFolderPath folders
        (folderKey (if accumulated = "" then part else accumulated ++ "/" ++ part))
    · rw [if_pos hpres, if_pos hpres]
      exact ih folders _
    · rw [if_neg hpres, if_neg hpres]
      rw [ih _ _]
      have hfun : hasFolderPath (folders ++
          [mkGMFolder part (folderKey (if accumulated = "" then part
            else accumulated ++ "/" ++ part))])
        = (fun k => hasFolderPath folders k ||
            k == folderKey (if accumulated = "" then part
              else accumulated ++ "/" ++ part)) := by
        funext k
        exact hasFolderPath_append folders _ _ k
      rw [hfun]
      simp [List.append_assoc]

lemma hasFolderPath_suffix (folders : List JVal) (tail : List JVal) (k : String)
    (h : hasFolderPath folders k = true) :
    hasFolderPath (folders ++ tail) k = true := by
  rw [hasFolderPath, List.any_append]
  rw [hasFolderPath] at h
  simp [h]

lemma ensureLoop_present :
    ∀ (parts : List String) (folders : List JVal) (accumulated : String)
      (nk : String × String), nk ∈ chainPairs accumulated parts →
      hasFolderPath (ensureLoop folders accumulated parts) nk.2 = true := by
  intro parts
  induction parts with
  | nil =>
    intro folders accumulated nk h
    cases h
  | cons part rest ih =>
    intro folders accumulated nk h
    rw [chainPairs] at h
    rw [ensureLoop]
    rcases List.mem_cons.mp h with rfl | hmem
    · -- the head key is present after this step, and stays present
      by_cases hpres : hasFolderPath folders
          (folderKey (if accumulated = "" then part else accumulated ++ "/" ++ part))
      · rw [if_pos hpres]
        rw [ensureLoop_spec]
        exact hasFolderPath_suffix _ _ _ hpres
      · rw [if_neg hpres]
        rw [ensureLoop_spec]
        refine hasFolderPath_suffix _ _ _ ?_
        rw [hasFolderPath_append]
        simp
    · exact ih _ _ nk hmem

lemma ensureLoop_idem :
    ∀ (parts : List String) (folders : List JVal) (accumulated : String),
      (∀ nk ∈ chainPairs accumulated parts, hasFolderPath folders nk.2 = true) →
      ensureLoop folders accumulated parts = folders := by
  intro parts
  induction parts with
  | nil =>
    intro folders accumulated _
    rfl
  | cons part rest ih =>
    intro folders accumulated hall
    rw [ensureLoop]
    have hhead := hall _ (by rw [chainPairs]; exact List.mem_cons_self _ _)
    rw [if_pos hhead]
    refine ih _ _ ?_
    intro nk hmem
    exact hall nk (by rw [chainPairs]; exact List.mem_cons_of_mem _ hmem)

/-- C8: `ensure_gm_folders` appends, in parent-then-child order, one folder
record for each prefix path of the chain whose normalized key is not
already present (first occurrence only), leaving the existing records
untouched; afterwards every chain key is present, and running it again
with the same path changes nothing. -/
theorem ensure_gm_folders_correct (folders : List JVal) (gm_folder_path : String) :
    ensure_gm_folders folders gm_folder_path
      = folders ++ (missingPairs (hasFolderPath folders)
          (chainPairs "" (gm_folder_path.splitOn "/"))).map
            (fun nk => mkGMFolder nk.1 nk.2) ∧
    (∀ nk ∈ chainPairs "" (gm_folder_path.splitOn "/"),
      hasFolderPath (ensure_gm_folders folders gm_folder_path) nk.2 = true) ∧
    ensure_gm_folders (ensure_gm_folders folders gm_folder_path) gm_folder_path
      = ensure_gm_folders folders gm_folder_path := by
  refine ⟨ensureLoop_spec _ _ _, ?_, ?_⟩
  · intro nk hmem
    exact ensureLoop_present _ _ _ nk hmem
  · exact ensureLoop_idem _ _ _ (fun nk hmem => ensureLoop_present _ _ _ nk hmem)

/-- C6: for a prior descriptor that parses and carries all ten integer
fields, the overrides are read, and carried into the new record, if and
only if the recorded width and height exactly equal the new dimensions; on
a mismatch they are discarded and the freshly computed bounding box (with
origin 0) stands. -/
theorem overrides_iff_dims (val seq : JVal) (w h : Nat)
    (ow oh bm bb bl br bt og xo yo : Int)
    (hw : getInt val "width" = some ow) (hh : getInt val "height" = some oh)
    (hs : jGet val "sequence" = some seq)
    (hbm : getInt val "bboxMode" = some bm) (hbb : getInt val "bbox_bottom" = some bb)
    (hbl : getInt val "bbox_left" = some bl) (hbr : getInt val "bbox_right" = some br)
    (hbt : getInt val "bbox_top" = some bt) (hog : getInt val "origin" = some og)
    (hxo : getInt seq "xorigin" = some xo) (hyo : getInt seq "yorigin" = some yo)
    (frames : List Frame) :
    (read_sprite_overrides (some val) w h = some ⟨bm, bb, bl, br, bt, og, xo, yo⟩
        ↔ (ow = (w : Int) ∧ oh = (h : Int))) ∧
    applyOverrides (baseRecord w h (calculate_tight_bbox frames w h))
        (read_sprite_overrides (some val) w h)
      = (if ow = (w : Int) ∧ oh = (h : Int) then
          ⟨bm, bb, bl, br, bt, og, xo, yo⟩
        else baseRecord w h (calculate_tight_bbox frames w h)) := by
  have hread : read_sprite_overrides (some val) w h
      = if ow = (w : Int) ∧ oh = (h : Int) then
          some ⟨bm, bb, bl, br, bt, og, xo, yo⟩
        else none := by
    by_cases hd : ow = (w : Int) ∧ oh = (h : Int)
    · obtain ⟨h1, h2⟩ := hd
      subst h1
      subst h2
      simp only [read_sprite_overrides, hw, hh, hs, hbm, hbb, hbl, hbr, hbt, hog, hxo, hyo]
      simp
    · have hcond : ow ≠ (w : Int) ∨ oh ≠ (h : Int) := not_and_or.mp hd
      simp only [read_sprite_overrides, hw, hh]
      rw [if_pos hcond, if_neg hd]
  constructor
  · rw [hread]
    by_cases hd : ow = (w : Int) ∧ oh = (h : Int)
    · rw [if_pos hd]
      exact iff_of_true rfl hd
    · rw [if_neg hd]
      exact iff_of_false (fun hcon => Option.noConfusion hcon) hd
  · rw [hread]
    by_cases hd : ow = (w : Int) ∧ oh = (h : Int)
    · rw [if_pos hd, if_pos hd]
      rfl
    · rw [if_neg hd, if_neg hd]
      rfl

/-- Witness for C6: re-importing the 16×16 descriptor at 16×16 carries the
overrides; the theorem instance also records what a 32×32 re-import would
do through the `if`. -/
theorem overrides_iff_dims_witness :
    (read_sprite_overrides (some exYy) 16 16 = some ⟨2, 13, 2, 13, 2, 9, 3, 4⟩
        ↔ ((16 : Int) = ((16 : Nat) : Int) ∧ (16 : Int) = ((16 : Nat) : Int))) ∧
    applyOverrides (baseRecord 16 16 (calculate_tight_bbox [] 16 16))
        (read_sprite_overrides (some exYy) 16 16)
      = (if (16 : Int) = ((16 : Nat) : Int) ∧ (16 : Int) = ((16 : Nat) : Int) then
          ⟨2, 13, 2, 13, 2, 9, 3, 4⟩
        else baseRecord 16 16 (calculate_tight_bbox [] 16 16)) :=
  overrides_iff_dims exYy exSeq 16 16 16 16 2 13 2 13 2 9 3 4
    rfl rfl rfl rfl rfl rfl rfl rfl rfl rfl rfl []

/-- C10: the override snapshot is silently discarded as a whole — the read
returns `none` and the import proceeds with the freshly built record —
whenever the prior descriptor is missing/unreadable/unparsable (the `none`
input), its `sequence` object is absent, or any one of the eight override
fields is absent or not an integer; this happens regardless of the
dimensions, and no error is produced (the read is total and the merge just
keeps the fresh record). -/
theorem overrides_discarded_on_failure (w h : Nat) :
    read_sprite_overrides none w h = none ∧
    (∀ val, jGet val "sequence" = none → read_sprite_overrides (some val) w h = none) ∧
    (∀ val, getInt val "bboxMode" = none → read_sprite_overrides (some val) w h = none) ∧
    (∀ val, getInt val "bbox_bottom" = none → read_sprite_overrides (some val) w h = none) ∧
    (∀ val, getInt val "bbox_left" = none → read_sprite_overrides (some val) w h = none) ∧
    (∀ val, getInt val "bbox_right" = none → read_sprite_overrides (some val) w h = none) ∧
    (∀ val, getInt val "bbox_top" = none → read_sprite_overrides (some val) w h = none) ∧
    (∀ val, getInt val "origin" = none → read_sprite_overrides (some val) w h = none) ∧
    (∀ val seq, jGet val "sequence" = some seq → getInt seq "xorigin" = none →
      read_sprite_overrides (some val) w h = none) ∧
    (∀ val seq, jGet val "sequence" = some seq → getInt seq "yorigin" = none →
      read_sprite_overrides (some val) w h = none) ∧
    (∀ base : SpriteRecordFields, applyOverrides base none = base) := by
  refine ⟨rfl, ?_, ?_, ?_, ?_, ?_, ?_, ?_, ?_, ?_, fun base => rfl⟩ <;>
  · intros
    simp only [read_sprite_overrides]
    split <;> try rfl
    split <;> try rfl
    split <;> try rfl
    split <;> simp_all

/-- Witness for C10: even with matching 16×16 dimensions, a prior
descriptor lacking `bboxMode` yields no overrides. -/
theorem overrides_discarded_on_failure_witness :
    read_sprite_overrides (some exYyNoBboxMode) 16 16 = none :=
  (overrides_discarded_on_failure 16 16).2.2.1 exYyNoBboxMode rfl

/-- Witness for C3 at a concrete input: a one-frame, one-pixel stack. -/
theorem palette_invariants_witness :
    (buildPalette [[⟨7, 8, 9, 255⟩]]).color_list.length ≤ 256 ∧
    (buildPalette [[⟨7, 8, 9, 255⟩]]).color_list.head? = some transparent_marker ∧
    (buildPalette [[⟨7, 8, 9, 255⟩]]).color_list.Nodup ∧
    (buildPalette [[⟨7, 8, 9, 255⟩]]).color_list.drop 1
      = (firstSeen [transparent_marker] (opaqueScan [[⟨7, 8, 9, 255⟩]])).take 255 ∧
    (∀ c i, mapLookup (buildPalette [[⟨7, 8, 9, 255⟩]]).color_map c = some i →
      i < (buildPalette [[⟨7, 8, 9, 255⟩]]).color_list.length ∧
      (buildPalette [[⟨7, 8, 9, 255⟩]]).color_list.getD i transparent_marker = c) :=
  palette_invariants [[⟨7, 8, 9, 255⟩]]

/-- Witness for C8 at a concrete input: the chain `A/B` over one existing
unrelated folder record. -/
theorem ensure_gm_folders_correct_witness :
    ensure_gm_folders [mkGMFolder "Z" (folderKey "Z")] "A/B"
      = [mkGMFolder "Z" (folderKey "Z")] ++
          (missingPairs (hasFolderPath [mkGMFolder "Z" (folderKey "Z")])
            (chainPairs "" ("A/B".splitOn "/"))).map (fun nk => mkGMFolder nk.1 nk.2) ∧
    (∀ nk ∈ chainPairs "" ("A/B".splitOn "/"),
      hasFolderPath (ensure_gm_folders [mkGMFolder "Z" (folderKey "Z")] "A/B") nk.2 = true) ∧
    ensure_gm_folders (ensure_gm_folders [mkGMFolder "Z" (folderKey "Z")] "A/B") "A/B"
      = ensure_gm_folders [mkGMFolder "Z" (folderKey "Z")] "A/B" :=
  ensure_gm_folders_correct [mkGMFolder "Z" (folderKey "Z")] "A/B"

/-- Witness for C9 at a concrete input: a list already holding an entry
named `sHero` and one named `sOther`. -/
theorem upsert_resource_correct_witness :
    (upsert_resource [mkResourceEntry "sHero" "p0", mkResourceEntry "sOther" "p1"]
        "sHero" "p2").dropLast
      = [mkResourceEntry "sHero" "p0", mkResourceEntry "sOther" "p1"].filter
          (fun e => resourceName e ≠ some "sHero") ∧
    (upsert_resource [mkResourceEntry "sHero" "p0", mkResourceEntry "sOther" "p1"]
        "sHero" "p2").getLast? = some (mkResourceEntry "sHero" "p2") ∧
    (∀ e ∈ (upsert_resource [mkResourceEntry "sHero" "p0", mkResourceEntry "sOther" "p1"]
        "sHero" "p2").dropLast, resourceName e ≠ some "sHero") ∧
    (upsert_resource [mkResourceEntry "sHero" "p0", mkResourceEntry "sOther" "p1"]
        "sHero" "p2").countP (fun e => resourceName e = some "sHero") = 1 ∧
    upsert_resource (upsert_resource [mkResourceEntry "sHero" "p0",
        mkResourceEntry "sOther" "p1"] "sHero" "p2") "sHero" "p2"
      = upsert_resource [mkResourceEntry "sHero" "p0", mkResourceEntry "sOther" "p1"]
          "sHero" "p2" :=
  upsert_resource_correct [mkResourceEntry "sHero" "p0", mkResourceEntry "sOther" "p1"]
    "sHero" "p2"

end Gmh
